import Mathlib

/-!
Verification of the two command-line utilities of this repository:

* `src/cmake-arm-none-eabi/build_artifact_name.py` (artifact namer),
* `src/generate-cmake-flags-files/generate_cmake_flags_files.py`
  (flag-file generator).

The pure transformation logic of both scripts is embedded below as
executable Lean definitions; the thin I/O layer of the generator
(`main`) is modelled as a pure function from the parsed JSON document to
the list of produced artifacts plus the exit code and the sequence of
filesystem effects.

Modelling conventions:
* parsed JSON is the inductive type `JVal`; JSON numbers are modelled as
  integers (no claim depends on non-integer numerals);
* a Python `dict` produced by `json.load` is a `List (String × JVal)`
  whose keys are unique; an `OrderedDict` of flags is a
  `List (String × String)`;
* Python `None` (both from JSON `null` and from a missing key in
  `dict.get`) is `Option.none` at use sites, via `pyGet`.
-/

/-- A JSON value as loaded by `json.load`.  Numbers are modelled as
integers. -/
inductive JVal where
  | str (s : String)
  | num (n : Int)
  | bool (b : Bool)
  | null
  | obj (fields : List (String × JVal))
  | arr (items : List JVal)

/-- Python's `sep.join(l)`. -/
def joinWith (sep : String) : List String → String
  | [] => ""
  | [a] => a
  | a :: rest => a ++ sep ++ joinWith sep rest

/-- Python's `s.strip()`: whitespace removed from both ends. -/
def pyStrip (s : String) : String :=
  String.mk (((s.data.dropWhile Char.isWhitespace).reverse.dropWhile Char.isWhitespace).reverse)

/-- Python's `s.lower()` (ASCII case folding). -/
def pyLower (s : String) : String :=
  String.mk (s.data.map Char.toLower)

mutual

/-- Python `repr` of a `json.load`-produced value (simplified: string
escaping is not modelled; it is only reachable when a container value is
used as a software-entry name). -/
def pyRepr : JVal → String
  | .str s => "\x27" ++ s ++ "\x27"
  | .num n => toString n
  | .bool b => if b then "True" else "False"
  | .null => "None"
  | .arr items => "[" ++ joinWith ", " (pyReprList items) ++ "]"
  | .obj fields => "\x7b" ++ joinWith ", " (pyReprFields fields) ++ "\x7d"

def pyReprList : List JVal → List String
  | [] => []
  | v :: rest => pyRepr v :: pyReprList rest

def pyReprFields : List (String × JVal) → List String
  | [] => []
  | kv :: rest => ("\x27" ++ kv.1 ++ "\x27: " ++ pyRepr kv.2) :: pyReprFields rest

end

/-- Python `str` of a `json.load`-produced value. -/
def pyStr : JVal → String
  | .str s => s
  | .num n => toString n
  | .bool b => if b then "True" else "False"
  | .null => "None"
  | .arr items => pyRepr (.arr items)
  | .obj fields => pyRepr (.obj fields)

/-- `isinstance(v, (str, int, float, bool, type(None)))`. -/
def isPrimitiveB : JVal → Bool
  | .obj _ => false
  | .arr _ => false
  | _ => true

/-- `isinstance(v, dict)`. -/
def isObjB : JVal → Bool
  | .obj _ => true
  | _ => false

/-- First binding of key `k` in a Python dict (keys are unique in a
`json.load`-produced dict). -/
def dictLookup (fields : List (String × JVal)) (k : String) : Option JVal :=
  (fields.find? (fun kv => kv.1 == k)).map Prod.snd

/-- Python `o.get(k)` on a `json.load`-produced value: `none` both when
the key is absent and when it is bound to JSON `null`, since either way
Python yields `None`. -/
def pyGet (o : JVal) (k : String) : Option JVal :=
  match o with
  | .obj fields =>
    match dictLookup fields k with
    | some .null => none
    | some v => some v
    | none => none
  | _ => none

/-- Lexicographic `≤` on character lists by code point, the order
Python compares strings with. -/
def charListLe : List Char → List Char → Bool
  | [], _ => true
  | _ :: _, [] => false
  | a :: as, b :: bs => if a < b then true else if a = b then charListLe as bs else false

/-- Python string `≤`. -/
def strLeB (a b : String) : Bool := charListLe a.data b.data

/-- Insert into a `strLeB`-sorted list, keeping it sorted. -/
def orderedInsertStr (a : String) : List String → List String
  | [] => [a]
  | b :: l => if strLeB a b then a :: b :: l else b :: orderedInsertStr a l

/-- Python `sorted` on a list of strings (insertion sort; the input keys
are unique, so stability is irrelevant). -/
def sortKeys : List String → List String
  | [] => []
  | a :: l => orderedInsertStr a (sortKeys l)

/-! ## `generate_cmake_flags_files.py`: pure transformation functions -/

/-- Characters kept verbatim by the regex `[^a-z0-9-]+ → '-'` of
`sanitize_value_for_filename`. -/
def isFilenameChar (c : Char) : Bool :=
  ('a' ≤ c && c ≤ 'z') || ('0' ≤ c && c ≤ '9') || c = '-'

/-- `re.sub(r'-{2,}', '-', s)` on a list of characters.  Because every
run of characters rejected by `isFilenameChar` has first been turned
into a run of hyphens character by character, collapsing hyphen runs
afterwards yields exactly the result of the source's
`re.sub(r'[^a-z0-9-]+', '-', s)` followed by its own collapsing step. -/
def collapseHyphens : List Char → List Char
  | [] => []
  | [c] => [c]
  | c1 :: c2 :: rest =>
    if c1 = '-' && c2 = '-' then collapseHyphens (c2 :: rest)
    else c1 :: collapseHyphens (c2 :: rest)

/-- Python `s.strip('-')` on a list of characters. -/
def stripHyphens (l : List Char) : List Char :=
  ((l.dropWhile (fun c => c = '-')).reverse.dropWhile (fun c => c = '-')).reverse

/-- The string path of `sanitize_value_for_filename`, applied to
`str(s)` when `s` is not `None`. -/
def sanitizeStr (s : String) : String :=
  let s1 := pyLower (pyStrip s)
  if s1 = "" then "empty"
  else
    let s2 := s1.data.map fun c => if c = '_' then '-' else c
    let s3 := s2.map fun c => if isFilenameChar c then c else '-'
    let s4 := stripHyphens (collapseHyphens s3)
    if s4 = [] then "empty" else String.mk s4

/-- `sanitize_value_for_filename` of the source: `None ↦ "none"`,
otherwise lowercase `str(s).strip()`, underscores and all characters
outside `[a-z0-9-]` to hyphens, hyphen runs collapsed, leading/trailing
hyphens stripped, empty result to `"empty"`. -/
def sanitize_value_for_filename : JVal → String
  | .null => "none"
  | v => sanitizeStr (pyStr v)

/-- `stringify_primitive` of the source: booleans to `ON`/`OFF`,
`None` to the empty string, other primitives via `str`. -/
def stringify_primitive : JVal → String
  | .bool b => if b then "ON" else "OFF"
  | .null => ""
  | v => pyStr v

/-- `collect_dict_flags` of the source: iterate the dict keys in sorted
order, keep primitive-valued entries stringified, drop the rest; a
non-dict input yields the empty flag map. -/
def collect_dict_flags (d : JVal) : List (String × String) :=
  match d with
  | .obj fields =>
    (sortKeys (fields.map Prod.fst)).filterMap fun k =>
      match dictLookup fields k with
      | some v => if isPrimitiveB v then some (k, stringify_primitive v) else none
      | none => none
  | _ => []

/-- `merged[k] = v` on an `OrderedDict` represented as an association
list: an existing binding is updated in place, a new key is appended. -/
def odSet (m : List (String × String)) (k v : String) : List (String × String) :=
  if k ∈ m.map Prod.fst then m.map fun p => if p.1 = k then (p.1, v) else p
  else m ++ [(k, v)]

/-- `merge_flags` of the source: insert every `hw` binding into an empty
`OrderedDict`, then every `sw` binding (software keys override). -/
def merge_flags (hw_flags sw_flags : List (String × String)) : List (String × String) :=
  sw_flags.foldl (fun acc kv => odSet acc kv.1 kv.2)
    (hw_flags.foldl (fun acc kv => odSet acc kv.1 kv.2) [])

/-- `OrderedDict` lookup, used to state what a flag map contains. -/
def lookupFlag (m : List (String × String)) (k : String) : Option String :=
  (m.find? (fun kv => kv.1 == k)).map Prod.snd

/-- Consume one or more decimal digits, returning the rest. -/
def chompDigits1 : List Char → Option (List Char)
  | c :: rest => if c.isDigit then some ((c :: rest).dropWhile Char.isDigit) else none
  | [] => none

/-- Consume an optional `+`/`-` sign. -/
def chompSign : List Char → List Char
  | c :: rest => if c = '+' || c = '-' then rest else c :: rest
  | [] => []

/-- Consume an optional `.digits` group (a bare `.` fails, as the regex
group then cannot match and the leftover `.` blocks the full match). -/
def chompFrac : List Char → Option (List Char)
  | '.' :: rest => chompDigits1 rest
  | l => some l

/-- Consume an optional `[eE][+-]?digits` group. -/
def chompExp : List Char → Option (List Char)
  | c :: rest =>
    if c = 'e' || c = 'E' then chompDigits1 (chompSign rest) else some (c :: rest)
  | [] => some []

/-- `is_numeric_string` of the source:
`re.fullmatch(r'[+-]?\d+(\.\d+)?([eE][+-]?\d+)?', s)` (with `\d` read as
the ASCII digits). -/
def is_numeric_string (s : String) : Bool :=
  if s = "" then false
  else
    match chompDigits1 (chompSign s.data) with
    | none => false
    | some r1 =>
      match chompFrac r1 with
      | none => false
      | some r2 =>
        match chompExp r2 with
        | none => false
        | some r3 => r3.isEmpty

/-- `flags_to_lines` of the source: `-DKEY` for an empty value, else
`-DKEY=VALUE`; the `ON`/`OFF`-or-numeric test of the source selects
between two branches that emit the same text. -/
def flags_to_lines (flags : List (String × String)) : List String :=
  flags.map fun kv =>
    if kv.2 = "" then "-D" ++ kv.1
    else
      if kv.2 = "ON" || kv.2 = "OFF" || is_numeric_string kv.2 then
        "-D" ++ kv.1 ++ "=" ++ kv.2
      else
        "-D" ++ kv.1 ++ "=" ++ kv.2

/-- `hw_filename_base_from_hw_flags` of the source: sanitize the flag
values whose `str(v).strip()` is non-empty (the values of a collected
flag map are strings, so the `is not None` test never fires), join with
`_`; if nothing remains the base is `hw{index}`. -/
def hw_filename_base_from_hw_flags (hw_flags : List (String × String)) (hw_index : Nat) :
    String :=
  let vals := ((hw_flags.map Prod.snd).filter fun v => pyStrip v != "").map fun v =>
    sanitize_value_for_filename (.str v)
  if vals ≠ [] then joinWith "_" vals else "hw" ++ toString hw_index

/-! ## `generate_cmake_flags_files.py`: the `main` loop, modelled as a
pure function from the parsed document to the produced artifacts -/

/-- One produced output: a file in `--outdir` (or the corresponding dry
run report line). -/
structure Artifact where
  filename : String
  content : String
  deriving DecidableEq, Repr

/-- File content written by `main`: `"\n".join(lines) + "\n"`. -/
def fileContent (lines : List String) : String :=
  joinWith "\n" lines ++ "\n"

/-- `hw.get('hw_flags', {}) if isinstance(hw.get('hw_flags', {}), dict)
else {}` (and the same expression for `sw_flags`). -/
def dictFieldOrEmpty (o : JVal) (k : String) : JVal :=
  match pyGet o k with
  | some v => if isObjB v then v else .obj []
  | none => .obj []

/-- Filename chosen for one software entry (the filename block of the
inner loop of `main`): a non-empty `name` wins regardless of the index,
the unnamed entry at index 0 drops the suffix, any other unnamed entry
gets `_sw-conf{index}`. -/
def sw_filename (hw_base : String) (sw_index : Nat) (sw : JVal) : String :=
  match pyGet sw "name" with
  | some nv =>
    if pyStrip (pyStr nv) != "" then
      hw_base ++ "_" ++ sanitize_value_for_filename nv ++ ".txt"
    else
      if sw_index = 0 then hw_base ++ ".txt"
      else hw_base ++ "_sw-conf" ++ toString sw_index ++ ".txt"
  | none =>
    if sw_index = 0 then hw_base ++ ".txt"
    else hw_base ++ "_sw-conf" ++ toString sw_index ++ ".txt"

/-- One iteration of the inner (`sw`) loop of `main`: a non-dict entry
is skipped (`continue`), a dict entry yields one artifact whose content
renders the merged flag map. -/
def sw_artifact (hw_flags : List (String × String)) (hw_base : String) (sw_index : Nat)
    (sw : JVal) : Option Artifact :=
  match sw with
  | .obj _ =>
    let sw_flags := collect_dict_flags (dictFieldOrEmpty sw "sw_flags")
    let merged := merge_flags hw_flags sw_flags
    some ⟨sw_filename hw_base sw_index sw, fileContent (flags_to_lines merged)⟩
  | _ => none

/-- The inner loop of `main`: `for sw_index, sw in enumerate(sw_list)`,
starting at index `i`. -/
def sw_artifactsFrom (hw_flags : List (String × String)) (hw_base : String) :
    Nat → List JVal → List Artifact
  | _, [] => []
  | i, sw :: rest =>
    (sw_artifact hw_flags hw_base i sw).toList ++ sw_artifactsFrom hw_flags hw_base (i + 1) rest

/-- One iteration of the outer (`hw`) loop of `main`: a non-dict entry
is skipped; a dict entry with a non-empty software list yields the inner
loop's artifacts, otherwise a single `{hw_base}.txt` holding the
hardware flags alone. -/
def hw_artifacts (hw_index : Nat) (hw : JVal) : List Artifact :=
  match hw with
  | .obj _ =>
    let hw_flags := collect_dict_flags (dictFieldOrEmpty hw "hw_flags")
    let hw_base := hw_filename_base_from_hw_flags hw_flags hw_index
    match pyGet hw "sw_configuration_list" with
    | some (.arr (sw :: sws)) => sw_artifactsFrom hw_flags hw_base 0 (sw :: sws)
    | _ => [⟨hw_base ++ ".txt", fileContent (flags_to_lines hw_flags)⟩]
  | _ => []

/-- The outer loop of `main`: `for hw_index, hw in enumerate(hw_list)`,
starting at index `i`. -/
def genArtifactsFrom : Nat → List JVal → List Artifact
  | _, [] => []
  | i, hw :: rest => hw_artifacts i hw ++ genArtifactsFrom (i + 1) rest

/-- `main` after JSON parsing, up to I/O: exit code 2 when the top-level
`hw_configuration_list` is missing or not a list; a non-dict top-level
document makes `data.get` raise an uncaught `AttributeError`, which
terminates the interpreter with exit code 1. -/
def run_generate (data : JVal) : Except Nat (List Artifact) :=
  match data with
  | .obj _ =>
    match pyGet data "hw_configuration_list" with
    | some (.arr hw_list) => .ok (genArtifactsFrom 0 hw_list)
    | _ => .error 2
  | _ => .error 1

/-- A filesystem effect of `main`: creating the output directory, or
writing one artifact file. -/
inductive Effect where
  | mkdirOut
  | writeFile (a : Artifact)
  deriving DecidableEq, Repr

/-- The effect trace and exit code of `main` (non-dry-run, all writes
succeeding): the input checks precede the `os.makedirs` call, which
precedes every file write. -/
def main_effects (data : JVal) : List Effect × Nat :=
  match run_generate data with
  | .error c => ([], c)
  | .ok arts => (Effect.mkdirOut :: arts.map Effect.writeFile, 0)

/-- `True` exactly when a `dict.get` result is a Python list. -/
def isArrV : Option JVal → Bool
  | some (.arr _) => true
  | _ => false

/-- The unnamed test of the inner loop: `name` absent, `None`, or with
whitespace-only `str`. -/
def swUnnamed (sw : JVal) : Bool :=
  match pyGet sw "name" with
  | some nv => pyStrip (pyStr nv) == ""
  | none => true

/-! ## `build_artifact_name.py` -/

/-- `sanitize` of `build_artifact_name.py`: dots to hyphens, then
lowercase; a falsy (empty) input yields the empty string.  Python's
single-character `str.replace` acts independently on each character. -/
def sanitize (s : String) : String :=
  if s = "" then ""
  else String.mk ((s.data.map fun c => if c = '.' then '-' else c).map Char.toLower)

/-- Python `configuration.split('_')` (single-character separator). -/
def splitOnChar (sep : Char) : List Char → List (List Char)
  | [] => [[]]
  | c :: rest =>
    let r := splitOnChar sep rest
    if c = sep then [] :: r
    else
      match r with
      | h :: t => (c :: h) :: t
      | [] => [[c]]

/-- `p.startswith('hw')`. -/
def startsWithHw (p : String) : Bool :=
  match p.data with
  | 'h' :: 'w' :: _ => true
  | _ => false

/-- The `for i, p in enumerate(parts_s)` loop of `build_artifact_name`:
return, for the first part starting with `hw`, the parts with the tag
inserted right after it; `none` when no part matches. -/
def insertTagAfterHw (tag_s : String) : List String → Option (List String)
  | [] => none
  | p :: rest =>
    if startsWithHw p then some (p :: tag_s :: rest)
    else
      match insertTagAfterHw tag_s rest with
      | some r => some (p :: r)
      | none => none

/-- `build_artifact_name` of the source. -/
def build_artifact_name (project configuration tag : String) : String :=
  let project_s := sanitize project
  let tag_s := sanitize tag
  let parts := if configuration = "" then [] else (splitOnChar '_' configuration.data).map String.mk
  let parts_s := parts.map sanitize
  match insertTagAfterHw tag_s parts_s with
  | some new_parts => project_s ++ "_" ++ joinWith "_" new_parts
  | none =>
    if parts_s ≠ [] then project_s ++ "_" ++ tag_s ++ "_" ++ joinWith "_" parts_s
    else project_s ++ "_" ++ tag_s

/-! ## Definitions written from the specification's words, for
refinement-style claims -/

/-- Modelled from the spec's round-trip sentence: parse one flag-file
line back into a `(key, value-or-absent)` pair by splitting the line on
the `-D` prefix and on the first `=`. -/
def parseFlagLine (line : String) : Option (String × Option String) :=
  match line.data with
  | '-' :: 'D' :: rest =>
    some (String.mk (rest.takeWhile fun c => c != '='),
      match rest.dropWhile (fun c => c != '=') with
      | [] => none
      | _ :: v => some (String.mk v))
  | _ => none

/-- The flag-map extraction exactly as claim C7 words it: sorted key
iteration, booleans to `ON`/`OFF`, `null` to the empty string, other
primitives by natural string conversion, non-primitives dropped,
non-object input empty. -/
def collect_dict_flags_spec (d : JVal) : List (String × String) :=
  match d with
  | .obj fields =>
    (sortKeys (fields.map Prod.fst)).filterMap fun k =>
      match dictLookup fields k with
      | some (.str s) => some (k, s)
      | some (.num n) => some (k, toString n)
      | some (.bool b) => some (k, if b then "ON" else "OFF")
      | some .null => some (k, "")
      | some (.obj _) => none
      | some (.arr _) => none
      | none => none
  | _ => []

/-- The rendered file content exactly as claim C8 words it: one line per
key in flag-map order, `-DKEY` for the empty value and `-DKEY=VALUE`
(value as-is) otherwise, joined by newlines with a single trailing
newline. -/
def flag_file_content_spec (flags : List (String × String)) : String :=
  joinWith "\n"
    (flags.map fun kv =>
      if kv.2 = "" then "-D" ++ kv.1 else "-D" ++ kv.1 ++ "=" ++ kv.2) ++ "\n"

/-- The filename base exactly as claim C2 words it, over the raw
`hw_flags` object: each non-empty flag value is sanitized, a
`null`-valued flag contributes the literal `none`, values are joined
with `_` in sorted-key order, and `hw{N}` is the fallback. -/
def hw_base_claimC2 (d : JVal) (hw_index : Nat) : String :=
  match d with
  | .obj fields =>
    let vals := (sortKeys (fields.map Prod.fst)).filterMap fun k =>
      match dictLookup fields k with
      | some .null => some "none"
      | some v =>
        if isPrimitiveB v && stringify_primitive v != "" then
          some (sanitizeStr (stringify_primitive v))
        else none
      | none => none
    if vals ≠ [] then joinWith "_" vals else "hw" ++ toString hw_index
  | _ => "hw" ++ toString hw_index

/-- The filename base as amended: a `null`-valued flag is stringified to
the empty string and dropped, exactly like every flag whose stringified
value is empty or whitespace-only; the remaining values are sanitized
and joined with `_` in sorted-key order, with fallback `hw{N}`. -/
def hw_base_amendedC2 (d : JVal) (hw_index : Nat) : String :=
  match d with
  | .obj fields =>
    let vals := (sortKeys (fields.map Prod.fst)).filterMap fun k =>
      match dictLookup fields k with
      | some v =>
        if isPrimitiveB v && pyStrip (stringify_primitive v) != "" then
          some (sanitizeStr (stringify_primitive v))
        else none
      | none => none
    if vals ≠ [] then joinWith "_" vals else "hw" ++ toString hw_index
  | _ => "hw" ++ toString hw_index

/-- Index of the first part whose sanitized text starts with `hw`. -/
def firstHwIndex : List String → Option Nat
  | [] => none
  | p :: rest => if startsWithHw p then some 0 else (firstHwIndex rest).map (· + 1)

/-- `build_artifact_name` exactly as claim C5 words it: sanitize project
and tag, split the configuration on `_` and sanitize each part, insert
the sanitized tag right after the first part starting with `hw`, and
join everything with `_`; with no `hw` part the result is
`project_tag_parts...` (or `project_tag` with no parts). -/
def build_artifact_name_spec (project configuration tag : String) : String :=
  let project_s := sanitize project
  let tag_s := sanitize tag
  let parts_s :=
    (if configuration = "" then []
     else (splitOnChar '_' configuration.data).map String.mk).map sanitize
  match firstHwIndex parts_s with
  | some i =>
    joinWith "_" (project_s :: (parts_s.take (i + 1) ++ tag_s :: parts_s.drop (i + 1)))
  | none => joinWith "_" (project_s :: tag_s :: parts_s)

/-! ## Helper lemmas -/

theorem joinWith_cons_of_ne_nil (sep a : String) (l : List String) (h : l ≠ []) :
    joinWith sep (a :: l) = a ++ sep ++ joinWith sep l := by
  cases l with
  | nil => exact absurd rfl h
  | cons b t => rfl

theorem flags_to_lines_eq (flags : List (String × String)) :
    flags_to_lines flags
      = flags.map fun kv => if kv.2 = "" then "-D" ++ kv.1 else "-D" ++ kv.1 ++ "=" ++ kv.2 := by
  simp [flags_to_lines]

/-! ## Claim theorems: rendering (C8) and flag-map extraction (C7) -/

/-- C8: for every flag map, rendering produces one line per key in
flag-map order, the line `-D{KEY}` when the value is the empty string
and `-D{KEY}={VALUE}` otherwise with the value written as-is (the
`ON`/`OFF`-or-numeric test of the source does not change the output),
and the emitted file content is the lines joined by newline with a
single trailing newline. -/
theorem flags_rendering_matches_spec (flags : List (String × String)) :
    (flags_to_lines flags).length = flags.length
      ∧ flags_to_lines flags
          = flags.map (fun kv => if kv.2 = "" then "-D" ++ kv.1 else "-D" ++ kv.1 ++ "=" ++ kv.2)
      ∧ fileContent (flags_to_lines flags) = flag_file_content_spec flags := by
  refine ⟨?_, flags_to_lines_eq flags, ?_⟩
  · simp [flags_to_lines]
  · rw [fileContent, flags_to_lines_eq, flag_file_content_spec]

/-- C7: for every JSON object, the flag map built from it iterates the
keys in sorted order, keeps only primitive-valued entries, stringifies
booleans as `ON`/`OFF`, `null` as the empty string and the other
primitives by natural string conversion, and drops object and array
values; a non-object input yields the empty flag map. -/
theorem collect_dict_flags_matches_spec (d : JVal) :
    collect_dict_flags d = collect_dict_flags_spec d := by
  cases d with
  | obj fields =>
    simp only [collect_dict_flags, collect_dict_flags_spec]
    refine List.filterMap_congr fun k _ => ?_
    cases h : dictLookup fields k with
    | none => simp [h]
    | some v => cases v <;> simp [h, isPrimitiveB, stringify_primitive, pyStr]
  | str s => rfl
  | num n => rfl
  | bool b => rfl
  | null => rfl
  | arr items => rfl

/-! ## Claim theorem: artifact namer (C5) -/

theorem insertTagAfterHw_eq (tag_s : String) (l : List String) :
    insertTagAfterHw tag_s l
      = (firstHwIndex l).map fun i => l.take (i + 1) ++ tag_s :: l.drop (i + 1) := by
  induction l with
  | nil => rfl
  | cons p rest ih =>
    by_cases h : startsWithHw p
    · simp [insertTagAfterHw, firstHwIndex, h]
    · simp only [insertTagAfterHw, firstHwIndex, h, ih, Bool.false_eq_true, if_false]
      cases firstHwIndex rest with
      | none => rfl
      | some i => simp [List.take_succ_cons, List.drop_succ_cons]

theorem build_artifact_name_cases (ps ts : String) (parts : List String) :
    (match insertTagAfterHw ts parts with
      | some new_parts => ps ++ "_" ++ joinWith "_" new_parts
      | none =>
        if parts ≠ [] then ps ++ "_" ++ ts ++ "_" ++ joinWith "_" parts
        else ps ++ "_" ++ ts)
      = (match firstHwIndex parts with
        | some i => joinWith "_" (ps :: (parts.take (i + 1) ++ ts :: parts.drop (i + 1)))
        | none => joinWith "_" (ps :: ts :: parts)) := by
  rw [insertTagAfterHw_eq]
  cases h : firstHwIndex parts with
  | some i =>
    simp only [Option.map_some']
    rw [joinWith_cons_of_ne_nil]
    exact fun hc => by simp at hc
  | none =>
    simp only [Option.map_none']
    cases parts with
    | nil => simp [joinWith]
    | cons a l =>
      have h1 : joinWith "_" (ps :: ts :: a :: l) = ps ++ "_" ++ joinWith "_" (ts :: a :: l) := rfl
      have h2 : joinWith "_" (ts :: a :: l) = ts ++ "_" ++ joinWith "_" (a :: l) := rfl
      simp [h1, h2, String.append_assoc]

/-- C5: `build_artifact_name` sanitizes project and tag (dots to
hyphens, lowercased), splits the configuration on `_` and sanitizes each
part; the sanitized tag is inserted right after the first part starting
with `hw` and everything is joined with `_`; with no `hw` part the
result is `project_tag` followed by the parts.  In particular
`build_artifact_name "My.Proj" "hw_board_debug" "v1.2.3"
= "my-proj_hw_v1-2-3_board_debug"`. -/
theorem build_artifact_name_matches_spec :
    (∀ project configuration tag,
        build_artifact_name project configuration tag
          = build_artifact_name_spec project configuration tag)
      ∧ build_artifact_name "My.Proj" "hw_board_debug" "v1.2.3"
          = "my-proj_hw_v1-2-3_board_debug" := by
  refine ⟨fun project configuration tag => ?_, by decide⟩
  simp only [build_artifact_name, build_artifact_name_spec]
  exact build_artifact_name_cases _ _ _

/-! ## Claim theorems: filename base (C2) -/

theorem sanitize_str_val (s : String) : sanitize_value_for_filename (.str s) = sanitizeStr s :=
  rfl

/-- C2 counterexample: on the hardware flag map `{"K": null}` the claim
prescribes the base `none` (a null-valued flag contributing the literal
token `none`), but the code stringifies `null` to the empty string in
`collect_dict_flags`, so `hw_filename_base_from_hw_flags` drops it and
falls back to `hw0`. -/
theorem hw_base_null_flag_counterexample :
    hw_filename_base_from_hw_flags (collect_dict_flags (JVal.obj [("K", JVal.null)])) 0 = "hw0"
      ∧ hw_base_claimC2 (JVal.obj [("K", JVal.null)]) 0 = "none"
      ∧ ("hw0" : String) ≠ "none" :=
  ⟨rfl, rfl, by decide⟩

/-- C2 as amended: the filename base sanitizes each flag value whose
stringification is not empty or whitespace-only, joined with `_` in
sorted-key order; a null-valued flag is stringified to the empty string
and therefore contributes nothing (rather than the token `none`); if no
usable value remains the base is `hw{N}` with `N` the zero-based index
of the hardware entry. -/
theorem hw_base_matches_amended_spec (d : JVal) (hw_index : Nat) :
    hw_filename_base_from_hw_flags (collect_dict_flags d) hw_index
      = hw_base_amendedC2 d hw_index := by
  cases d with
  | obj fields =>
    simp only [hw_filename_base_from_hw_flags, collect_dict_flags, hw_base_amendedC2]
    rw [List.map_filterMap, List.filter_filterMap, List.map_filterMap]
    have hv : ∀ k ∈ sortKeys (fields.map Prod.fst),
        ((((match dictLookup fields k with
            | some v => if isPrimitiveB v then some (k, stringify_primitive v) else none
            | none => none).map Prod.snd).filter fun v => pyStrip v != "").map fun v =>
              sanitize_value_for_filename (.str v))
          = (match dictLookup fields k with
            | some v =>
              if isPrimitiveB v && pyStrip (stringify_primitive v) != "" then
                some (sanitizeStr (stringify_primitive v))
              else none
            | none => none) := by
      intro k _
      cases dictLookup fields k with
      | none => rfl
      | some v =>
        by_cases hp : isPrimitiveB v = true
        · simp only [hp, if_true, Option.map_some', Option.filter, Bool.true_and]
          by_cases hs : pyStrip (stringify_primitive v) != ""
          · simp [hs, sanitize_str_val]
          · simp [hs]
        · simp [hp]
    rw [List.filterMap_congr hv]
  | str s => rfl
  | num n => rfl
  | bool b => rfl
  | null => rfl
  | arr items => rfl

/-! ## Claim theorems: line round-trip (C4) -/

theorem takeWhile_eq_self_of_no_eq (k : List Char) (h : '=' ∉ k) :
    k.takeWhile (fun c => c != '=') = k := by
  induction k with
  | nil => rfl
  | cons c t ih =>
    simp only [List.mem_cons, not_or] at h
    have hc : (c != '=') = true := by simpa using Ne.symm h.1
    simp [List.takeWhile_cons, hc, ih h.2]

theorem dropWhile_eq_nil_of_no_eq (k : List Char) (h : '=' ∉ k) :
    k.dropWhile (fun c => c != '=') = [] := by
  induction k with
  | nil => rfl
  | cons c t ih =>
    simp only [List.mem_cons, not_or] at h
    have hc : (c != '=') = true := by simpa using Ne.symm h.1
    simp [List.dropWhile_cons, hc, ih h.2]

theorem takeWhile_append_eqchar (k v : List Char) (h : '=' ∉ k) :
    (k ++ '=' :: v).takeWhile (fun c => c != '=') = k := by
  induction k with
  | nil => simp [List.takeWhile_cons]
  | cons c t ih =>
    simp only [List.mem_cons, not_or] at h
    have hc : (c != '=') = true := by simpa using Ne.symm h.1
    simp [List.takeWhile_cons, hc, ih h.2]

theorem dropWhile_append_eqchar (k v : List Char) (h : '=' ∉ k) :
    (k ++ '=' :: v).dropWhile (fun c => c != '=') = '=' :: v := by
  induction k with
  | nil => simp [List.dropWhile_cons]
  | cons c t ih =>
    simp only [List.mem_cons, not_or] at h
    have hc : (c != '=') = true := by simpa using Ne.symm h.1
    simp [List.dropWhile_cons, hc, ih h.2]

theorem parse_line_empty_value (k : String) (hk : '=' ∉ k.data) :
    parseFlagLine ("-D" ++ k) = some (k, none) := by
  have hd : ("-D" ++ k).data = '-' :: 'D' :: k.data := by
    rw [String.data_append]
    rfl
  simp only [parseFlagLine, hd, takeWhile_eq_self_of_no_eq k.data hk,
    dropWhile_eq_nil_of_no_eq k.data hk]

theorem parse_line_nonempty_value (k v : String) (hk : '=' ∉ k.data) :
    parseFlagLine ("-D" ++ k ++ "=" ++ v) = some (k, some v) := by
  have hd : ("-D" ++ k ++ "=" ++ v).data = '-' :: 'D' :: (k.data ++ '=' :: v.data) := by
    rw [String.data_append, String.data_append, String.data_append, List.append_assoc,
      List.append_assoc]
    rfl
  simp only [parseFlagLine, hd, takeWhile_append_eqchar k.data v.data hk,
    dropWhile_append_eqchar k.data v.data hk]

/-- C4 counterexample: the flag map `{"A=B": ""}` (reachable from input
`{"hw_flags": {"A=B": null}}`) renders the line `-DA=B`, which parses
back to the pair `("A", "B" present)`, not to the original pair
`("A=B", value absent)`: the round trip fails for keys containing
`=`. -/
theorem flag_line_roundtrip_counterexample :
    flags_to_lines [("A=B", "")] = ["-DA=B"]
      ∧ parseFlagLine "-DA=B" = some ("A", some "B")
      ∧ parseFlagLine "-DA=B" ≠ some (("A=B" : String), (none : Option String)) :=
  ⟨by decide, by decide, by decide⟩

/-- C4 as amended: for every flag map whose keys contain no `=`
character, every line rendered into a flag file is independently
parseable back into the original `(key, value-or-absent)` pair by
splitting the line on the `-D` prefix and the first `=`. -/
theorem flag_lines_roundtrip (flags : List (String × String))
    (h : ∀ kv ∈ flags, '=' ∉ kv.1.data) :
    (flags_to_lines flags).map parseFlagLine
      = flags.map (fun kv => some (kv.1, if kv.2 = "" then none else some kv.2)) := by
  rw [flags_to_lines_eq, List.map_map]
  refine List.map_congr_left fun kv hkv => ?_
  show parseFlagLine (if kv.2 = "" then "-D" ++ kv.1 else "-D" ++ kv.1 ++ "=" ++ kv.2)
    = some (kv.1, if kv.2 = "" then none else some kv.2)
  by_cases h2 : kv.2 = ""
  · rw [if_pos h2, if_pos h2, parse_line_empty_value kv.1 (h kv hkv)]
  · rw [if_neg h2, if_neg h2, parse_line_nonempty_value kv.1 kv.2 (h kv hkv)]

/-- Witness for C4's amended round-trip at a concrete flag map. -/
theorem flag_lines_roundtrip_witness :
    (flags_to_lines [("KEY", "v"), ("E", "")]).map parseFlagLine
      = [some (("KEY" : String), some "v"), some (("E" : String), (none : Option String))] :=
  flag_lines_roundtrip [("KEY", "v"), ("E", "")] (by decide)

/-! ## Helper lemmas on the software-entry loop -/

theorem option_toList_eq_nil {α : Type} (o : Option α) : o.toList = [] ↔ o = none := by
  cases o <;> simp

theorem sw_artifact_obj (hwf : List (String × String)) (base : String) (i : Nat)
    (fields : List (String × JVal)) :
    sw_artifact hwf base i (.obj fields)
      = some ⟨sw_filename base i (.obj fields),
          fileContent (flags_to_lines (merge_flags hwf
            (collect_dict_flags (dictFieldOrEmpty (.obj fields) "sw_flags"))))⟩ :=
  rfl

theorem sw_artifact_eq_none_iff (hwf : List (String × String)) (base : String) (i : Nat)
    (sw : JVal) : sw_artifact hwf base i sw = none ↔ isObjB sw = false := by
  cases sw <;> simp [sw_artifact, isObjB]

theorem mem_sw_artifactsFrom_of (hwf : List (String × String)) (base : String)
    (l : List JVal) (i j : Nat) (sw : JVal) (a : Artifact)
    (hj : l[j]? = some sw) (ha : sw_artifact hwf base (i + j) sw = some a) :
    a ∈ sw_artifactsFrom hwf base i l := by
  induction l generalizing i j with
  | nil => simp at hj
  | cons s rest ih =>
    cases j with
    | zero =>
      rw [List.getElem?_cons_zero] at hj
      injection hj with hj
      subst hj
      rw [Nat.add_zero] at ha
      simp [sw_artifactsFrom, ha]
    | succ j' =>
      rw [List.getElem?_cons_succ] at hj
      have hstep : (i + 1) + j' = i + (j' + 1) := by omega
      have hmem := ih (i + 1) j' hj (by rw [hstep]; exact ha)
      simp [sw_artifactsFrom, hmem]

theorem exists_of_mem_sw_artifactsFrom (hwf : List (String × String)) (base : String)
    (l : List JVal) (i : Nat) (a : Artifact) (ha : a ∈ sw_artifactsFrom hwf base i l) :
    ∃ j sw, l[j]? = some sw ∧ sw_artifact hwf base (i + j) sw = some a := by
  induction l generalizing i with
  | nil => simp [sw_artifactsFrom] at ha
  | cons s rest ih =>
    rw [sw_artifactsFrom, List.mem_append] at ha
    cases ha with
    | inl h =>
      refine ⟨0, s, by simp, ?_⟩
      rw [Nat.add_zero]
      cases hsa : sw_artifact hwf base i s with
      | none => rw [hsa] at h; simp at h
      | some b => rw [hsa] at h; simp at h; rw [h]
    | inr h =>
      obtain ⟨j, sw, hj, hsw⟩ := ih (i + 1) h
      refine ⟨j + 1, sw, by simpa using hj, ?_⟩
      have hstep : (i + 1) + j = i + (j + 1) := by omega
      rw [← hstep]
      exact hsw

theorem sw_artifactsFrom_eq_nil_iff (hwf : List (String × String)) (base : String)
    (i : Nat) (l : List JVal) :
    sw_artifactsFrom hwf base i l = [] ↔ ∀ sw ∈ l, isObjB sw = false := by
  induction l generalizing i with
  | nil => simp [sw_artifactsFrom]
  | cons s rest ih =>
    rw [sw_artifactsFrom, List.append_eq_nil, option_toList_eq_nil, sw_artifact_eq_none_iff,
      ih (i + 1), List.forall_mem_cons]

/-! ## Claim theorems: software-entry filenames (C3) -/

/-- C3 counterexample: under hardware base `b`, the software list
`[{"name": "a"}, {}]` has its first unnamed entry at index 1, yet that
entry produces `b_sw-conf1.txt` and no `b.txt` is produced: the
no-suffix rule belongs to index 0, not to the first unnamed entry. -/
theorem first_unnamed_entry_counterexample :
    (sw_artifactsFrom [] "b" 0 [JVal.obj [("name", JVal.str "a")], JVal.obj []]).map
        Artifact.filename
        = ["b_a.txt", "b_sw-conf1.txt"]
      ∧ "b.txt" ∉ (sw_artifactsFrom [] "b" 0
          [JVal.obj [("name", JVal.str "a")], JVal.obj []]).map Artifact.filename :=
  ⟨by decide, by decide⟩

/-- C3 as amended: for every software configuration list, the object
entry at index `i` yields an artifact whose filename is
`{hw_base}_{sanitized_name}.txt` when its `name` field is non-empty
(regardless of the index), `{hw_base}.txt` when it is unnamed and at
index 0, and `{hw_base}_sw-conf{i}.txt` when it is unnamed at any index
`i > 0` (the index counts every list position, object or not). -/
theorem sw_entry_filename_rule (hwf : List (String × String)) (base : String)
    (l : List JVal) (i : Nat) (fields : List (String × JVal))
    (hl : l[i]? = some (JVal.obj fields)) :
    ∃ a ∈ sw_artifactsFrom hwf base 0 l,
      a.filename
        = match pyGet (JVal.obj fields) "name" with
          | some nv =>
            if pyStrip (pyStr nv) != "" then
              base ++ "_" ++ sanitize_value_for_filename nv ++ ".txt"
            else
              if i = 0 then base ++ ".txt"
              else base ++ "_sw-conf" ++ toString i ++ ".txt"
          | none =>
            if i = 0 then base ++ ".txt"
            else base ++ "_sw-conf" ++ toString i ++ ".txt" := by
  refine ⟨⟨sw_filename base i (JVal.obj fields),
      fileContent (flags_to_lines (merge_flags hwf
        (collect_dict_flags (dictFieldOrEmpty (JVal.obj fields) "sw_flags"))))⟩, ?_, ?_⟩
  · exact mem_sw_artifactsFrom_of hwf base l 0 i _ _ hl
      (by rw [Nat.zero_add]; exact sw_artifact_obj hwf base i fields)
  · rfl

/-- Witness for C3's amended filename rule: the unnamed object entry at
index 1 of a two-entry list yields `b_sw-conf1.txt`. -/
theorem sw_entry_filename_rule_witness :
    ∃ a ∈ sw_artifactsFrom [] "b" 0 [JVal.obj [("name", JVal.str "a")], JVal.obj []],
      a.filename = "b_sw-conf1.txt" := by
  have h := sw_entry_filename_rule [] "b"
    [JVal.obj [("name", JVal.str "a")], JVal.obj []] 1 [] (by rfl)
  simpa using h

/-! ## Claim theorems: at least one artifact per hardware entry (C1) -/

/-- C1 counterexample: the document
`{"hw_configuration_list": [{"sw_configuration_list": [0]}]}` has a
valid top-level list whose single hardware entry is a JSON object, yet
the run produces zero artifacts: the software list is a non-empty list
containing no object entry, so the inner loop skips everything and the
no-software branch is never taken. -/
theorem hw_entry_zero_artifacts_counterexample :
    isObjB (JVal.obj [("sw_configuration_list", JVal.arr [JVal.num 0])]) = true
      ∧ run_generate (JVal.obj [("hw_configuration_list",
          JVal.arr [JVal.obj [("sw_configuration_list", JVal.arr [JVal.num 0])]])])
          = .ok [] :=
  ⟨rfl, rfl⟩

/-- C1 as amended: a hardware entry that is a JSON object yields zero
output artifacts exactly when its `sw_configuration_list` is a non-empty
list containing no object entry; in every other case (absent, null,
non-list, empty list, or a list with at least one object entry) it
yields at least one artifact — in particular one artifact with zero
software entries. -/
theorem hw_entry_artifacts_eq_nil_iff (i : Nat) (hw : JVal) (h : isObjB hw = true) :
    hw_artifacts i hw = []
      ↔ ∃ l, pyGet hw "sw_configuration_list" = some (JVal.arr l) ∧ l ≠ []
          ∧ ∀ sw ∈ l, isObjB sw = false := by
  cases hw with
  | obj fields =>
    simp only [hw_artifacts]
    cases hg : pyGet (JVal.obj fields) "sw_configuration_list" with
    | none => simp [hg]
    | some v =>
      cases v with
      | arr items =>
        cases items with
        | nil => simp [hg]
        | cons s ss => simp [hg, sw_artifactsFrom_eq_nil_iff]
      | str s => simp [hg]
      | num n => simp [hg]
      | bool b => simp [hg]
      | null => simp [hg]
      | obj f2 => simp [hg]
  | str s => simp [isObjB] at h
  | num n => simp [isObjB] at h
  | bool b => simp [isObjB] at h
  | null => simp [isObjB] at h
  | arr items => simp [isObjB] at h

/-- Witness for C1's amended characterization: the hardware entry
`{"sw_configuration_list": [7]}` is an object and yields zero
artifacts. -/
theorem hw_entry_artifacts_eq_nil_iff_witness :
    hw_artifacts 0 (JVal.obj [("sw_configuration_list", JVal.arr [JVal.num 7])]) = [] := by
  refine (hw_entry_artifacts_eq_nil_iff 0
    (JVal.obj [("sw_configuration_list", JVal.arr [JVal.num 7])]) rfl).mpr
    ⟨[JVal.num 7], rfl, ?_, ?_⟩
  · exact List.cons_ne_nil _ _
  · intro sw hsw
    rw [List.mem_singleton] at hsw
    subst hsw
    rfl

/-! ## Claim theorems: error handling and skip policy (C9) -/

/-- C9 counterexample: the valid JSON document `"abc"` has no top-level
`hw_configuration_list` key at all, yet the generator does not exit with
code 2: `data.get` raises an uncaught `AttributeError` on the string, so
the interpreter terminates with exit code 1 (still with zero files and
zero directory creations). -/
theorem generator_nonobject_input_counterexample :
    main_effects (JVal.str "abc") = ([], 1)
      ∧ (([], 1) : List Effect × Nat) ≠ (([], 2) : List Effect × Nat) :=
  ⟨rfl, by decide⟩

/-- C9 as amended: for every object input whose `hw_configuration_list`
key is missing, null, or not a list, the generator exits with code 2 and
performs no filesystem effect at all (no file write and no output
directory creation); a non-object top-level document instead dies with
exit code 1, also with zero effects; non-object entries inside the
hardware and software lists are silently skipped (they contribute no
artifact) and are never fatal: any object input with a list-valued
`hw_configuration_list` exits with code 0. -/
theorem generator_error_handling (fields : List (String × JVal))
    (h : isArrV (pyGet (JVal.obj fields) "hw_configuration_list") = false) :
    main_effects (JVal.obj fields) = ([], 2)
      ∧ (∀ i e, isObjB e = false → hw_artifacts i e = [])
      ∧ (∀ hwf base i e, isObjB e = false → sw_artifact hwf base i e = none)
      ∧ (∀ f2 l, pyGet (JVal.obj f2) "hw_configuration_list" = some (JVal.arr l) →
          (main_effects (JVal.obj f2)).2 = 0) := by
  refine ⟨?_, ?_, ?_, ?_⟩
  · rw [main_effects, run_generate]
    cases hg : pyGet (JVal.obj fields) "hw_configuration_list" with
    | none => rfl
    | some v =>
      cases v with
      | arr items => rw [hg] at h; simp [isArrV] at h
      | str s => rfl
      | num n => rfl
      | bool b => rfl
      | null => rfl
      | obj f2 => rfl
  · intro i e he
    cases e <;> first | rfl | simp [isObjB] at he
  · intro hwf base i e he
    exact (sw_artifact_eq_none_iff hwf base i e).mpr he
  · intro f2 l hg
    rw [main_effects, run_generate, hg]

/-- Witness for C9's amended error handling, at an empty object, a
non-object list entry, and an object input with an empty list. -/
theorem generator_error_handling_witness :
    main_effects (JVal.obj []) = ([], 2)
      ∧ hw_artifacts 0 (JVal.num 3) = []
      ∧ sw_artifact [] "b" 0 (JVal.num 3) = none
      ∧ (main_effects (JVal.obj [("hw_configuration_list", JVal.arr [])])).2 = 0 :=
  ⟨(generator_error_handling [] rfl).1,
   (generator_error_handling [] rfl).2.1 0 (JVal.num 3) rfl,
   (generator_error_handling [] rfl).2.2.1 [] "b" 0 (JVal.num 3) rfl,
   (generator_error_handling [] rfl).2.2.2 [("hw_configuration_list", JVal.arr [])] [] rfl⟩

/-! ## Claim theorems: raw-index semantics (C10) -/

theorem string_append_left_cancel (a b c : String) (h : a ++ b = a ++ c) : b = c := by
  have hd := congrArg String.data h
  rw [String.data_append, String.data_append] at hd
  have hbc := List.append_cancel_left hd
  cases b
  cases c
  exact congrArg String.mk hbc

theorem ne_base_txt_of_head_underscore (base x : String) (hx : x.data.head? = some '_') :
    base ++ x ≠ base ++ ".txt" := by
  intro h
  have h2 := string_append_left_cancel base x ".txt" h
  rw [h2] at hx
  exact absurd hx (by decide)

theorem sw_filename_ne_base (base : String) (i : Nat) (sw : JVal) (hi : i ≠ 0) :
    sw_filename base i sw ≠ base ++ ".txt" := by
  have hconf : base ++ "_sw-conf" ++ toString i ++ ".txt" ≠ base ++ ".txt" := by
    have hassoc : base ++ "_sw-conf" ++ toString i ++ ".txt"
        = base ++ ("_sw-conf" ++ (toString i ++ ".txt")) := by
      simp [String.append_assoc]
    rw [hassoc]
    refine ne_base_txt_of_head_underscore base _ ?_
    rw [String.data_append]
    rfl
  unfold sw_filename
  split
  · rename_i nv hn
    by_cases hs : (pyStrip (pyStr nv) != "") = true
    · rw [if_pos hs]
      have hassoc : base ++ "_" ++ sanitize_value_for_filename nv ++ ".txt"
          = base ++ ("_" ++ (sanitize_value_for_filename nv ++ ".txt")) := by
        simp [String.append_assoc]
      rw [hassoc]
      refine ne_base_txt_of_head_underscore base _ ?_
      rw [String.data_append]
      rfl
    · rw [if_neg hs, if_neg hi]
      exact hconf
  · rw [if_neg hi]
    exact hconf

theorem sw_filename_unnamed_pos (base : String) (i : Nat) (sw : JVal)
    (hu : swUnnamed sw = true) (hi : i ≠ 0) :
    sw_filename base i sw = base ++ "_sw-conf" ++ toString i ++ ".txt" := by
  unfold swUnnamed at hu
  unfold sw_filename
  split
  · rename_i nv hn
    rw [hn] at hu
    have hs : (pyStrip (pyStr nv) != "") = false := by
      simpa using hu
    rw [if_neg (by simp [hs]), if_neg hi]
  · rw [if_neg hi]

theorem hw_artifacts_non_obj (i : Nat) (e : JVal) (he : isObjB e = false) :
    hw_artifacts i e = [] := by
  cases e <;> first | rfl | simp [isObjB] at he

theorem genArtifactsFrom_append (i : Nat) (l1 l2 : List JVal) :
    genArtifactsFrom i (l1 ++ l2)
      = genArtifactsFrom i l1 ++ genArtifactsFrom (i + l1.length) l2 := by
  induction l1 generalizing i with
  | nil => simp [genArtifactsFrom]
  | cons e rest ih =>
    rw [List.cons_append, genArtifactsFrom, genArtifactsFrom, ih (i + 1), List.append_assoc]
    have hstep : (i + 1) + rest.length = i + (e :: rest).length := by
      simp
      omega
    rw [hstep]

theorem genArtifactsFrom_nil_of_no_obj (i : Nat) (l : List JVal)
    (h : ∀ e ∈ l, isObjB e = false) : genArtifactsFrom i l = [] := by
  induction l generalizing i with
  | nil => rfl
  | cons e rest ih =>
    rw [genArtifactsFrom, hw_artifacts_non_obj i e (h e (List.mem_cons_self e rest)),
      List.nil_append]
    exact ih (i + 1) fun x hx => h x (List.mem_cons_of_mem e hx)

/-- C10: the index `M` of the unnamed-software-entry filename rule and
the index `N` of the `hw{N}` fallback are positions in the raw input
lists, counting skipped non-object entries: when the software entry at
index 0 is not an object, no `{hw_base}.txt` is produced and an unnamed
object entry at index `M > 0` is emitted as `{hw_base}_sw-conf{M}.txt`;
likewise non-object hardware entries advance `hw_index`, so an object
entry following only skipped entries is processed with its raw index. -/
theorem raw_index_semantics :
    (∀ (hwf : List (String × String)) (base : String) (e : JVal) (l : List JVal),
        isObjB e = false →
          (base ++ ".txt") ∉ (sw_artifactsFrom hwf base 0 (e :: l)).map Artifact.filename)
      ∧ (∀ (hwf : List (String × String)) (base : String) (l : List JVal) (M : Nat)
          (sw : JVal), l[M]? = some sw → isObjB sw = true → swUnnamed sw = true → M ≠ 0 →
            ∃ a ∈ sw_artifactsFrom hwf base 0 l,
              a.filename = base ++ "_sw-conf" ++ toString M ++ ".txt")
      ∧ (∀ (pre : List JVal) (hw : JVal), (∀ e ∈ pre, isObjB e = false) →
          genArtifactsFrom 0 (pre ++ [hw]) = hw_artifacts pre.length hw) := by
  refine ⟨?_, ?_, ?_⟩
  · intro hwf base e l he hmem
    rw [List.mem_map] at hmem
    obtain ⟨a, ham, hfn⟩ := hmem
    obtain ⟨j, sw, hj, hsw⟩ := exists_of_mem_sw_artifactsFrom hwf base (e :: l) 0 a ham
    cases j with
    | zero =>
      rw [List.getElem?_cons_zero] at hj
      injection hj with hj
      subst hj
      rw [(sw_artifact_eq_none_iff hwf base (0 + 0) e).mpr he] at hsw
      exact Option.noConfusion hsw
    | succ j' =>
      have hobj : isObjB sw = true := by
        by_contra hc
        have hcf : isObjB sw = false := by
          revert hc
          cases isObjB sw <;> simp
        rw [(sw_artifact_eq_none_iff hwf base (0 + (j' + 1)) sw).mpr hcf] at hsw
        exact Option.noConfusion hsw
      cases sw with
      | obj fields =>
        rw [Nat.zero_add, sw_artifact_obj] at hsw
        injection hsw with hsw
        have hfile := congrArg Artifact.filename hsw
        simp only at hfile
        rw [← hfile] at hfn
        exact sw_filename_ne_base base (j' + 1) (JVal.obj fields) (Nat.succ_ne_zero j') hfn
      | str s => simp [isObjB] at hobj
      | num n => simp [isObjB] at hobj
      | bool b => simp [isObjB] at hobj
      | null => simp [isObjB] at hobj
      | arr items => simp [isObjB] at hobj
  · intro hwf base l M sw hM hobj hu hMne
    cases sw with
    | obj fields =>
      refine ⟨⟨sw_filename base M (JVal.obj fields),
          fileContent (flags_to_lines (merge_flags hwf
            (collect_dict_flags (dictFieldOrEmpty (JVal.obj fields) "sw_flags"))))⟩, ?_, ?_⟩
      · exact mem_sw_artifactsFrom_of hwf base l 0 M _ _ hM
          (by rw [Nat.zero_add]; exact sw_artifact_obj hwf base M fields)
      · exact sw_filename_unnamed_pos base M (JVal.obj fields) hu hMne
    | str s => simp [isObjB] at hobj
    | num n => simp [isObjB] at hobj
    | bool b => simp [isObjB] at hobj
    | null => simp [isObjB] at hobj
    | arr items => simp [isObjB] at hobj
  · intro pre hw hpre
    rw [genArtifactsFrom_append 0 pre [hw], genArtifactsFrom_nil_of_no_obj 0 pre hpre,
      List.nil_append, Nat.zero_add, genArtifactsFrom, genArtifactsFrom, List.append_nil]

/-- Witness for C10: a skipped non-object first hardware entry still
advances the index, so the object entry after it gets base `hw1`. -/
theorem raw_index_semantics_witness :
    genArtifactsFrom 0 [JVal.num 1, JVal.obj []] = [⟨"hw1.txt", "\n"⟩] := by
  have h := raw_index_semantics.2.2 [JVal.num 1] (JVal.obj [])
    (by
      intro e he
      rw [List.mem_singleton] at he
      subst he
      rfl)
  exact h.trans rfl

/-! ## Claim theorems: flag-map merge (C6) -/

theorem lookupFlag_eq_none_of_not_mem (m : List (String × String)) (k : String)
    (h : k ∉ m.map Prod.fst) : lookupFlag m k = none := by
  induction m with
  | nil => rfl
  | cons p rest ih =>
    simp only [List.map_cons, List.mem_cons, not_or] at h
    rw [lookupFlag, List.find?_cons_of_neg, ← lookupFlag]
    · exact ih h.2
    · simp [Ne.symm h.1]

theorem lookupFlag_replace_self (m : List (String × String)) (k v : String)
    (h : k ∈ m.map Prod.fst) :
    lookupFlag (m.map fun p => if p.1 = k then (p.1, v) else p) k = some v := by
  induction m with
  | nil => simp at h
  | cons p rest ih =>
    by_cases hp : p.1 = k
    · rw [List.map_cons, if_pos hp, lookupFlag, List.find?_cons_of_pos]
      · simp [hp]
      · simp [hp]
    · rw [List.map_cons, if_neg hp, lookupFlag, List.find?_cons_of_neg, ← lookupFlag]
      · refine ih ?_
        simp only [List.map_cons, List.mem_cons] at h
        exact h.resolve_left fun hc => hp hc.symm
      · simp [hp]

theorem lookupFlag_replace_ne (m : List (String × String)) (k v k' : String) (h : k' ≠ k) :
    lookupFlag (m.map fun p => if p.1 = k then (p.1, v) else p) k' = lookupFlag m k' := by
  induction m with
  | nil => rfl
  | cons p rest ih =>
    by_cases hp : p.1 = k
    · rw [List.map_cons, if_pos hp, lookupFlag, lookupFlag, List.find?_cons, List.find?_cons]
      have hne : (p.1 == k') = false := by
        simp [hp, Ne.symm h]
      rw [hp] at hne ⊢
      simp only [hne, cond_false]
      exact ih
    · rw [List.map_cons, if_neg hp, lookupFlag, lookupFlag, List.find?_cons, List.find?_cons]
      cases hc : p.1 == k' with
      | true => simp
      | false => simp only [cond_false]; exact ih

theorem lookupFlag_append_single (m : List (String × String)) (k v : String)
    (h : k ∉ m.map Prod.fst) : lookupFlag (m ++ [(k, v)]) k = some v := by
  rw [lookupFlag, List.find?_append]
  have hm : m.find? (fun kv => kv.1 == k) = none := by
    have := lookupFlag_eq_none_of_not_mem m k h
    rw [lookupFlag] at this
    cases hf : m.find? fun kv => kv.1 == k with
    | none => rfl
    | some p => rw [hf] at this; simp at this
  rw [hm]
  simp

theorem lookupFlag_append_single_ne (m : List (String × String)) (k v k' : String)
    (h : k' ≠ k) : lookupFlag (m ++ [(k, v)]) k' = lookupFlag m k' := by
  rw [lookupFlag, List.find?_append, lookupFlag]
  cases hf : m.find? fun kv => kv.1 == k' with
  | some p => simp
  | none =>
    simp only [Option.none_or]
    rw [List.find?_cons_of_neg]
    · simp
    · simp [Ne.symm h]

theorem keys_odSet (m : List (String × String)) (k v : String) :
    (odSet m k v).map Prod.fst
      = if k ∈ m.map Prod.fst then m.map Prod.fst else m.map Prod.fst ++ [k] := by
  rw [odSet]
  split
  · rw [List.map_map]
    refine congrArg₂ _ ?_ rfl
    funext p
    by_cases hp : p.1 = k <;> simp [hp]
  · simp

theorem lookupFlag_odSet_self (m : List (String × String)) (k v : String) :
    lookupFlag (odSet m k v) k = some v := by
  rw [odSet]
  split
  · exact lookupFlag_replace_self m k v (by assumption)
  · exact lookupFlag_append_single m k v (by assumption)

theorem lookupFlag_odSet_ne (m : List (String × String)) (k v k' : String) (h : k' ≠ k) :
    lookupFlag (odSet m k v) k' = lookupFlag m k' := by
  rw [odSet]
  split
  · exact lookupFlag_replace_ne m k v k' h
  · exact lookupFlag_append_single_ne m k v k' h

theorem foldl_odSet_disjoint (l acc : List (String × String))
    (hl : (l.map Prod.fst).Nodup) (hd : ∀ k ∈ l.map Prod.fst, k ∉ acc.map Prod.fst) :
    l.foldl (fun acc kv => odSet acc kv.1 kv.2) acc = acc ++ l := by
  induction l generalizing acc with
  | nil => simp
  | cons p rest ih =>
    rw [List.foldl_cons]
    have hp : p.1 ∉ acc.map Prod.fst := hd p.1 (by simp)
    rw [show odSet acc p.1 p.2 = acc ++ [p] by rw [odSet, if_neg hp]]
    rw [List.map_cons, List.nodup_cons] at hl
    rw [ih (acc ++ [p]) hl.2 ?_, List.append_assoc, List.singleton_append]
    intro k hk
    simp only [List.map_append, List.mem_append, not_or]
    refine ⟨hd k (by simp [hk]), ?_⟩
    simp only [List.map_cons, List.map_nil, List.mem_singleton]
    intro hc
    subst hc
    exact hl.1 hk

theorem lookupFlag_foldl_not_mem (l acc : List (String × String)) (k : String)
    (h : k ∉ l.map Prod.fst) :
    lookupFlag (l.foldl (fun acc kv => odSet acc kv.1 kv.2) acc) k = lookupFlag acc k := by
  induction l generalizing acc with
  | nil => rfl
  | cons p rest ih =>
    simp only [List.map_cons, List.mem_cons, not_or] at h
    rw [List.foldl_cons, ih (odSet acc p.1 p.2) h.2, lookupFlag_odSet_ne acc p.1 p.2 k h.1]

theorem lookupFlag_foldl_mem (l acc : List (String × String)) (k v : String)
    (hl : (l.map Prod.fst).Nodup) (hm : (k, v) ∈ l) :
    lookupFlag (l.foldl (fun acc kv => odSet acc kv.1 kv.2) acc) k = some v := by
  induction l generalizing acc with
  | nil => simp at hm
  | cons p rest ih =>
    rw [List.map_cons, List.nodup_cons] at hl
    rw [List.foldl_cons]
    rcases List.mem_cons.mp hm with heq | hrest
    · subst heq
      rw [lookupFlag_foldl_not_mem rest (odSet acc k v) k hl.1,
        lookupFlag_odSet_self acc k v]
    · exact ih (odSet acc p.1 p.2) hl.2 hrest

theorem keys_foldl_odSet (l acc : List (String × String))
    (hl : (l.map Prod.fst).Nodup) :
    (l.foldl (fun acc kv => odSet acc kv.1 kv.2) acc).map Prod.fst
      = acc.map Prod.fst
          ++ (l.map Prod.fst).filter fun k => decide (k ∉ acc.map Prod.fst) := by
  induction l generalizing acc with
  | nil => simp
  | cons p rest ih =>
    rw [List.map_cons, List.nodup_cons] at hl
    rw [List.foldl_cons, ih (odSet acc p.1 p.2) hl.2, keys_odSet, List.map_cons]
    by_cases hp : p.1 ∈ acc.map Prod.fst
    · rw [if_pos hp, List.filter_cons_of_neg (by simp [hp])]
    · rw [if_neg hp, List.filter_cons_of_pos (by simp [hp]), List.append_assoc,
        List.singleton_append]
      refine congrArg _ (congrArg _ (List.filter_congr fun k hk => ?_))
      have hkp : k ≠ p.1 := fun hc => hl.1 (hc ▸ hk)
      simp [hkp, List.mem_append]

theorem merge_flags_eq_foldl (hw sw : List (String × String))
    (hhw : (hw.map Prod.fst).Nodup) :
    merge_flags hw sw = sw.foldl (fun acc kv => odSet acc kv.1 kv.2) hw := by
  rw [merge_flags, foldl_odSet_disjoint hw [] hhw (by simp)]
  rfl

/-- C6: for every hardware flag map and software flag map (flag maps
have unique keys and are key-sorted by construction), the merged map
contains the software value for every key present in both maps
(software wins on conflict), and its key order is the hardware keys
followed by the software-only keys, each group internally sorted. -/
theorem merge_flags_spec (hw sw : List (String × String))
    (hhwN : (hw.map Prod.fst).Nodup) (hswN : (sw.map Prod.fst).Nodup)
    (hhwS : (hw.map Prod.fst).Pairwise fun a b => strLeB a b = true)
    (hswS : (sw.map Prod.fst).Pairwise fun a b => strLeB a b = true) :
    (∀ k vh vs, (k, vh) ∈ hw → (k, vs) ∈ sw →
        lookupFlag (merge_flags hw sw) k = some vs)
      ∧ (merge_flags hw sw).map Prod.fst
          = hw.map Prod.fst
              ++ (sw.map Prod.fst).filter (fun k => decide (k ∉ hw.map Prod.fst))
      ∧ (hw.map Prod.fst).Pairwise (fun a b => strLeB a b = true)
      ∧ ((sw.map Prod.fst).filter (fun k => decide (k ∉ hw.map Prod.fst))).Pairwise
          (fun a b => strLeB a b = true) := by
  refine ⟨?_, ?_, hhwS, ?_⟩
  · intro k vh vs hkh hks
    rw [merge_flags_eq_foldl hw sw hhwN]
    exact lookupFlag_foldl_mem sw hw k vs hswN hks
  · rw [merge_flags_eq_foldl hw sw hhwN]
    exact keys_foldl_odSet sw hw hswN
  · exact List.Pairwise.sublist (List.filter_sublist _) hswS

/-- Witness for C6 at concrete sorted flag maps: the key `B` present in
both maps resolves to the software value, and the merged key order is
hardware keys then software-only keys. -/
theorem merge_flags_spec_witness :
    lookupFlag (merge_flags [("A", "1"), ("B", "2")] [("B", "9"), ("C", "3")]) "B" = some "9"
      ∧ (merge_flags [("A", "1"), ("B", "2")] [("B", "9"), ("C", "3")]).map Prod.fst
          = ["A", "B", "C"] := by
  have h := merge_flags_spec [("A", "1"), ("B", "2")] [("B", "9"), ("C", "3")]
    (by decide) (by decide) (by decide) (by decide)
  exact ⟨h.1 "B" "2" "9" (by decide) (by decide), h.2.1.trans (by decide)⟩
